import Mathlib

/-!
Shallow embedding of `src/weakable_unique_ptr.hpp`.

The C++ library provides three cooperating types:

* `weakable_unique_ptr_control_block<T>` — a heap-allocated, intrusively
  reference-counted record holding a raw pointer `px` (the liveness cell);
* `weakable_unique_ptr<T, Deleter>` — the exclusive owner: raw pointer `px`,
  deleter `pd`, and an `intrusive_ptr` to its control block `pc`;
* `unique_weak_ptr<T>` — the observer: just an `intrusive_ptr` to a control
  block.

We model raw object pointers as `Option Nat` (`none` is the null pointer),
deleters as `Nat` identifiers, and the heap of control blocks as a list of
`Option Cell` indexed by allocation order (`none` marks a deallocated block;
indices are stable, so an `Option Nat` models an `intrusive_ptr`).  Side
effects that the pointed-to objects experience (deleter invocations) and the
cell-clearing writes are recorded in an event log, so that the *order* of the
destructor's two steps is part of the model.  Each C++ member function becomes
a Lean function threading the heap `State` explicitly.
-/

namespace WeakableUnique

/-- One `weakable_unique_ptr_control_block`: an intrusive reference count
(`long ref_count`) and the stored object pointer (`T* px`, `none` = null). -/
structure Cell where
  ref_count : Int
  px : Option Nat
  deriving DecidableEq

/-- Observable events: `destroy d r` records the invocation `pd(px)` of
deleter `d` on object `r`; `clear i` records `(*pc).reset()` on cell `i`. -/
inductive Event where
  | destroy (d : Nat) (r : Nat)
  | clear (i : Nat)
  deriving DecidableEq

/-- The heap of control blocks plus the event log.  `cells[i] = none` means
the block at address `i` has been deallocated (`delete p` in
`intrusive_ptr_release`); the slot stays in the list so addresses are stable. -/
structure State where
  cells : List (Option Cell)
  events : List Event
  deriving DecidableEq

/-- The empty heap. -/
def State.empty : State := ⟨[], []⟩

/-- `control_block::get`: read the stored pointer of cell `i` (`none` when the
cell is absent — dereferencing a dead block is undefined in C++ and never
happens in reachable states). -/
def cbGet (s : State) (i : Nat) : Option Nat :=
  match s.cells[i]? with
  | some (some c) => c.px
  | _ => none

/-- `control_block::reset`: `px = nullptr` on cell `i`, logged as a
`clear` event. -/
def cbReset (s : State) (i : Nat) : State :=
  { cells :=
      match s.cells[i]? with
      | some (some c) => s.cells.set i (some { c with px := none })
      | _ => s.cells,
    events := s.events ++ [Event.clear i] }

/-- `intrusive_ptr_add_ref`: `++p->ref_count`. -/
def addRef (s : State) (i : Nat) : State :=
  { s with cells :=
      match s.cells[i]? with
      | some (some c) => s.cells.set i (some { c with ref_count := c.ref_count + 1 })
      | _ => s.cells }

/-- `intrusive_ptr_release`: `if (--p->ref_count == 0) delete p`. -/
def releaseRef (s : State) (i : Nat) : State :=
  { s with cells :=
      match s.cells[i]? with
      | some (some c) =>
          if c.ref_count - 1 = 0 then s.cells.set i none
          else s.cells.set i (some { c with ref_count := c.ref_count - 1 })
      | _ => s.cells }

/-- Destruction of an `intrusive_ptr<control_block>` holding `pc`
(release the count when non-null). -/
def ipRelease (s : State) (pc : Option Nat) : State :=
  match pc with
  | some i => releaseRef s i
  | none => s

/-- Copy-construction of an `intrusive_ptr<control_block>` from `pc`
(add a reference when non-null). -/
def ipAcquire (s : State) (pc : Option Nat) : State :=
  match pc with
  | some i => addRef s i
  | none => s

/-- `new control_block(p)`: append a fresh cell with `ref_count = 0` and
`px = p`; returns its address. -/
def allocCell (s : State) (p : Option Nat) : State × Nat :=
  ({ s with cells := s.cells ++ [some ⟨0, p⟩] }, s.cells.length)

/-- A `weakable_unique_ptr<T, Deleter>` value: object pointer `px`, deleter
`pd` (a `Nat` identifier), and the `intrusive_ptr` member `pc`. -/
structure Owner where
  px : Option Nat
  pd : Nat
  pc : Option Nat
  deriving DecidableEq

/-- A `unique_weak_ptr<T>` value: just the `intrusive_ptr` member `pc`. -/
structure Observer where
  pc : Option Nat
  deriving DecidableEq

namespace Owner

/-- `weakable_unique_ptr()` / `weakable_unique_ptr(nullptr_t)`: null pointer,
default-constructed deleter (we give the default deleter identifier `0`),
null `pc`.  No cell is allocated. -/
def construct_default : Owner := ⟨none, 0, none⟩

/-- `explicit weakable_unique_ptr(pointer p)` and the deleter-taking
constructors: store `p` and `d`, and initialize `pc` with
`new control_block(p)` — the `intrusive_ptr` constructor then adds the first
reference.  A cell is allocated even when `p` is null. -/
def construct_ptr (s : State) (p : Option Nat) (d : Nat) : State × Owner :=
  let a := allocCell s p
  (addRef a.1 a.2, ⟨p, d, some a.2⟩)

/-- `~weakable_unique_ptr()`: `if (px) pd(px);` then `if (pc) (*pc).reset();`
then the `intrusive_ptr` member `pc` is destroyed (reference released). -/
def destructor (s : State) (o : Owner) : State :=
  let s1 :=
    match o.px with
    | some r => { s with events := s.events ++ [Event.destroy o.pd r] }
    | none => s
  let s2 :=
    match o.pc with
    | some i => cbReset s1 i
    | none => s1
  ipRelease s2 o.pc

/-- `weakable_unique_ptr(weakable_unique_ptr&& r)`: take `px`, `pd` and the
`intrusive_ptr` `pc` (moved, so the source's `pc` becomes null with no count
change); then `r.px = 0`.  Returns `(destination, source afterwards)`; the
heap is untouched. -/
def move_construct (r : Owner) : Owner × Owner :=
  (⟨r.px, r.pd, r.pc⟩, ⟨none, r.pd, none⟩)

/-- `swap(weakable_unique_ptr&)`: exchange `px`, `pd`, `pc` — the whole value. -/
def swap (a b : Owner) : Owner × Owner := (b, a)

/-- `operator=(weakable_unique_ptr&& r)`:
`weakable_unique_ptr(std::move(r)).swap(*this)`; the temporary then destructs
holding `*this`'s old contents.  Returns `(state, this afterwards, r
afterwards)`.  (`this` and `r` are distinct objects here; self-move-assignment
is treated where configurations are stepped.) -/
def move_assign (s : State) (t r : Owner) : State × Owner × Owner :=
  let m := move_construct r
  let sw := swap m.1 t
  (destructor s sw.1, sw.2, m.2)

/-- `operator=(nullptr_t)`: `weakable_unique_ptr().swap(*this)`; the temporary
destructs holding the old contents. -/
def assign_null (s : State) (t : Owner) : State × Owner :=
  let sw := swap construct_default t
  (destructor s sw.1, sw.2)

/-- `release()`: default-construct `tmp`, `tmp.swap(*this)`, then return
`boost::exchange(tmp.px, nullptr)`; `tmp` destructs with a null `px` (so the
deleter is not invoked) but still holding the old cell (so the cell is
cleared and its reference released).  Returns
`(state, returned pointer, this afterwards)`. -/
def release (s : State) (t : Owner) : State × Option Nat × Owner :=
  let sw := swap construct_default t
  let ret := sw.1.px
  let tmp2 : Owner := { sw.1 with px := none }
  (destructor s tmp2, ret, sw.2)

/-- `reset(pointer p)`: `weakable_unique_ptr(p).swap(*this)` — a fresh cell is
allocated for `p` (even when `p` is null), then the temporary destructs
holding the old contents. -/
def reset (s : State) (t : Owner) (p : Option Nat) : State × Owner :=
  let cp := construct_ptr s p 0
  let sw := swap cp.2 t
  (destructor cp.1 sw.1, sw.2)

/-- `get()`: the raw pointer `px`. -/
def get (o : Owner) : Option Nat := o.px

/-- `explicit operator bool()`: `px != 0`. -/
def operator_bool (o : Owner) : Bool := o.px.isSome

/-- The owner's `pc`, when non-null, addresses an existing slot of the heap.
Every owner reachable through the API satisfies this. -/
def wf (s : State) (o : Owner) : Bool :=
  match o.pc with
  | some i => i < s.cells.length
  | none => true

end Owner

namespace Observer

/-- `unique_weak_ptr()`: null `pc`. -/
def construct_default : Observer := ⟨none⟩

/-- `unique_weak_ptr(const weakable_unique_ptr<Y>&)`: copy the owner's current
`pc` (reference added when non-null) — a one-time snapshot. -/
def construct_from_owner (s : State) (o : Owner) : State × Observer :=
  (ipAcquire s o.pc, ⟨o.pc⟩)

/-- `unique_weak_ptr(const unique_weak_ptr&)`: copy the source's `pc`
(reference added when non-null). -/
def construct_copy (s : State) (w : Observer) : State × Observer :=
  (ipAcquire s w.pc, ⟨w.pc⟩)

/-- `unique_weak_ptr(unique_weak_ptr&&)`: move the `pc` (source nulled, no
count change).  Returns `(destination, source afterwards)`. -/
def construct_move (w : Observer) : Observer × Observer :=
  (⟨w.pc⟩, ⟨none⟩)

/-- `~unique_weak_ptr()`: the `intrusive_ptr` member releases its reference. -/
def destructor (s : State) (w : Observer) : State := ipRelease s w.pc

/-- `swap(unique_weak_ptr&)`: exchange `pc`. -/
def swap (a b : Observer) : Observer × Observer := (b, a)

/-- `operator=(const unique_weak_ptr&)`: `unique_weak_ptr(r).swap(*this)`;
the temporary destructs holding the old `pc`. -/
def copy_assign (s : State) (t r : Observer) : State × Observer :=
  let cp := construct_copy s r
  let sw := swap cp.2 t
  (destructor cp.1 sw.1, sw.2)

/-- `operator=(unique_weak_ptr&&)` for distinct objects: move-construct the
temporary from `r`, swap with `*this`, destruct the temporary. -/
def move_assign (s : State) (t r : Observer) : State × Observer × Observer :=
  let m := construct_move r
  let sw := swap m.1 t
  (destructor s sw.1, sw.2, m.2)

/-- `operator=(const weakable_unique_ptr<Y>&)`:
`unique_weak_ptr(r).swap(*this)`. -/
def assign_from_owner (s : State) (t : Observer) (o : Owner) : State × Observer :=
  let cp := construct_from_owner s o
  let sw := swap cp.2 t
  (destructor cp.1 sw.1, sw.2)

/-- `reset()`: `unique_weak_ptr().swap(*this)`. -/
def reset (s : State) (t : Observer) : State × Observer :=
  let sw := swap construct_default t
  (destructor s sw.1, sw.2)

/-- `expired()`: `!(pc && pc->get())`. -/
def expired (s : State) (w : Observer) : Bool :=
  match w.pc with
  | some i => !(cbGet s i).isSome
  | none => true

/-- `try_get()`: `pc ? pc->get() : nullptr`. -/
def try_get (s : State) (w : Observer) : Option Nat :=
  match w.pc with
  | some i => cbGet s i
  | none => none

end Observer

/-!
A configuration records the heap together with every live owner and observer
value, so that the control-block reference-count invariant can be stated and
proved over all interleavings of the public API.
-/

/-- A whole-program configuration: the heap plus the lists of live
`weakable_unique_ptr` and `unique_weak_ptr` objects. -/
structure Config where
  st : State
  owners : List Owner
  observers : List Observer
  deriving DecidableEq

/-- The number of live handles bound to cell `i` among the given owners and
observers: owners whose `pc` is `i` plus observers whose `pc` is `i`. -/
def census (ow : List Owner) (obs : List Observer) (i : Nat) : Nat :=
  (ow.map Owner.pc ++ obs.map Observer.pc).count (some i)

/-- The number of live handles of a configuration bound to cell `i`. -/
def handleCount (c : Config) (i : Nat) : Nat := census c.owners c.observers i

/-- Cell `i` is consistent with the handle census `cnt`: a live cell's
reference count equals `cnt i`, and a deallocated or never-allocated address
has no handles. -/
def cellOk (s : State) (cnt : Nat → Nat) (i : Nat) : Prop :=
  match s.cells[i]? with
  | some (some c) => c.ref_count = (cnt i : Int)
  | _ => cnt i = 0

/-- Every cell of the heap is consistent with the census `cnt`. -/
def StateCount (s : State) (cnt : Nat → Nat) : Prop := ∀ i, cellOk s cnt i

/-- The reference-count invariant of a configuration. -/
def Inv (c : Config) : Prop := StateCount c.st (handleCount c)

/-- The contribution of a single handle `pc` to the census at cell `i`. -/
def hits (pc : Option Nat) (i : Nat) : Nat := if pc = some i then 1 else 0

/-- One public-API operation on a configuration; indices pick the owner or
observer objects involved.  Out-of-range indices leave the configuration
unchanged. -/
inductive Op where
  | ownerDefault
  | ownerNew (p : Option Nat) (d : Nat)
  | ownerMoveNew (k : Nat)
  | ownerMoveAssign (j k : Nat)
  | ownerAssignNull (j : Nat)
  | ownerRelease (j : Nat)
  | ownerReset (j : Nat) (p : Option Nat)
  | ownerSwap (j k : Nat)
  | ownerDestroy (j : Nat)
  | obsDefault
  | obsFromOwner (j : Nat)
  | obsCopyNew (k : Nat)
  | obsMoveNew (k : Nat)
  | obsCopyAssign (k l : Nat)
  | obsMoveAssign (k l : Nat)
  | obsAssignFromOwner (k j : Nat)
  | obsReset (k : Nat)
  | obsSwap (k l : Nat)
  | obsDestroy (k : Nat)
  deriving DecidableEq

/-- Execute one API operation.  Construction appends the new object;
destruction removes it; assignment and the mutating members replace the
object in place.  Self-move-assignment and self-swap are no-ops, matching
what the C++ swap-based implementations do on aliased arguments. -/
def step (c : Config) (op : Op) : Config :=
  match op with
  | .ownerDefault => { c with owners := c.owners ++ [Owner.construct_default] }
  | .ownerNew p d =>
      let r := Owner.construct_ptr c.st p d
      { st := r.1, owners := c.owners ++ [r.2], observers := c.observers }
  | .ownerMoveNew k =>
      match c.owners[k]? with
      | some o =>
          let m := Owner.move_construct o
          { c with owners := (c.owners.set k m.2) ++ [m.1] }
      | none => c
  | .ownerMoveAssign j k =>
      if j = k then c else
      match c.owners[j]?, c.owners[k]? with
      | some t, some r =>
          let m := Owner.move_assign c.st t r
          { st := m.1, owners := (c.owners.set j m.2.1).set k m.2.2,
            observers := c.observers }
      | _, _ => c
  | .ownerAssignNull j =>
      match c.owners[j]? with
      | some t =>
          let m := Owner.assign_null c.st t
          { st := m.1, owners := c.owners.set j m.2, observers := c.observers }
      | none => c
  | .ownerRelease j =>
      match c.owners[j]? with
      | some t =>
          let m := Owner.release c.st t
          { st := m.1, owners := c.owners.set j m.2.2, observers := c.observers }
      | none => c
  | .ownerReset j p =>
      match c.owners[j]? with
      | some t =>
          let m := Owner.reset c.st t p
          { st := m.1, owners := c.owners.set j m.2, observers := c.observers }
      | none => c
  | .ownerSwap j k =>
      if j = k then c else
      match c.owners[j]?, c.owners[k]? with
      | some a, some b =>
          let m := Owner.swap a b
          { c with owners := (c.owners.set j m.1).set k m.2 }
      | _, _ => c
  | .ownerDestroy j =>
      match c.owners[j]? with
      | some t =>
          { st := Owner.destructor c.st t, owners := c.owners.eraseIdx j,
            observers := c.observers }
      | none => c
  | .obsDefault =>
      { c with observers := c.observers ++ [Observer.construct_default] }
  | .obsFromOwner j =>
      match c.owners[j]? with
      | some o =>
          let r := Observer.construct_from_owner c.st o
          { st := r.1, owners := c.owners, observers := c.observers ++ [r.2] }
      | none => c
  | .obsCopyNew k =>
      match c.observers[k]? with
      | some w =>
          let r := Observer.construct_copy c.st w
          { st := r.1, owners := c.owners, observers := c.observers ++ [r.2] }
      | none => c
  | .obsMoveNew k =>
      match c.observers[k]? with
      | some w =>
          let m := Observer.construct_move w
          { c with observers := (c.observers.set k m.2) ++ [m.1] }
      | none => c
  | .obsCopyAssign k l =>
      match c.observers[k]?, c.observers[l]? with
      | some t, some r =>
          let m := Observer.copy_assign c.st t r
          { st := m.1, owners := c.owners, observers := c.observers.set k m.2 }
      | _, _ => c
  | .obsMoveAssign k l =>
      if k = l then c else
      match c.observers[k]?, c.observers[l]? with
      | some t, some r =>
          let m := Observer.move_assign c.st t r
          { st := m.1, owners := c.owners,
            observers := (c.observers.set k m.2.1).set l m.2.2 }
      | _, _ => c
  | .obsAssignFromOwner k j =>
      match c.observers[k]?, c.owners[j]? with
      | some t, some o =>
          let m := Observer.assign_from_owner c.st t o
          { st := m.1, owners := c.owners, observers := c.observers.set k m.2 }
      | _, _ => c
  | .obsReset k =>
      match c.observers[k]? with
      | some t =>
          let m := Observer.reset c.st t
          { st := m.1, owners := c.owners, observers := c.observers.set k m.2 }
      | none => c
  | .obsSwap k l =>
      if k = l then c else
      match c.observers[k]?, c.observers[l]? with
      | some a, some b =>
          let m := Observer.swap a b
          { c with observers := (c.observers.set k m.1).set l m.2 }
      | _, _ => c
  | .obsDestroy k =>
      match c.observers[k]? with
      | some t =>
          { st := Observer.destructor c.st t, owners := c.owners,
            observers := c.observers.eraseIdx k }
      | none => c

/-! ### Unfolding characterizations of the composite operations

Each is a definitional equality exposing the swap-based member functions as a
sequence of heap primitives. -/

theorem Owner.construct_ptr_eq (s : State) (p : Option Nat) (d : Nat) :
    Owner.construct_ptr s p d =
      (ipAcquire (allocCell s p).1 (some s.cells.length), ⟨p, d, some s.cells.length⟩) := rfl

theorem Owner.move_assign_eq (s : State) (t r : Owner) :
    Owner.move_assign s t r =
      (Owner.destructor s t, ⟨r.px, r.pd, r.pc⟩, ⟨none, r.pd, none⟩) := rfl

theorem Owner.assign_null_eq (s : State) (t : Owner) :
    Owner.assign_null s t = (Owner.destructor s t, Owner.construct_default) := rfl

theorem Owner.release_eq (s : State) (t : Owner) :
    Owner.release s t =
      (Owner.destructor s ⟨none, t.pd, t.pc⟩, t.px, Owner.construct_default) := rfl

theorem Owner.reset_eq (s : State) (t : Owner) (p : Option Nat) :
    Owner.reset s t p =
      (Owner.destructor (ipAcquire (allocCell s p).1 (some s.cells.length)) t,
        ⟨p, 0, some s.cells.length⟩) := rfl

theorem Observer.construct_from_owner_eq (s : State) (o : Owner) :
    Observer.construct_from_owner s o = (ipAcquire s o.pc, ⟨o.pc⟩) := rfl

theorem Observer.construct_copy_eq (s : State) (w : Observer) :
    Observer.construct_copy s w = (ipAcquire s w.pc, ⟨w.pc⟩) := rfl

theorem Observer.destructor_eq (s : State) (w : Observer) :
    Observer.destructor s w = ipRelease s w.pc := rfl

theorem Observer.copy_assign_eq (s : State) (t r : Observer) :
    Observer.copy_assign s t r = (ipRelease (ipAcquire s r.pc) t.pc, ⟨r.pc⟩) := rfl

theorem Observer.move_assign_obs_eq (s : State) (t r : Observer) :
    Observer.move_assign s t r = (ipRelease s t.pc, ⟨r.pc⟩, ⟨none⟩) := rfl

theorem Observer.assign_from_owner_eq (s : State) (t : Observer) (o : Owner) :
    Observer.assign_from_owner s t o = (ipRelease (ipAcquire s o.pc) t.pc, ⟨o.pc⟩) := rfl

theorem Observer.reset_obs_eq (s : State) (t : Observer) :
    Observer.reset s t = (ipRelease s t.pc, ⟨none⟩) := rfl

/-! ### Counting helper lemmas -/

theorem count_singleton_hits (pc : Option Nat) (i : Nat) :
    ([pc] : List (Option Nat)).count (some i) = hits pc i := by
  simp [List.count_cons, hits, Bool.beq_eq_decide_eq]

theorem count_cons_hits (pc : Option Nat) (l : List (Option Nat)) (i : Nat) :
    (pc :: l).count (some i) = l.count (some i) + hits pc i := by
  simp [List.count_cons, hits, Bool.beq_eq_decide_eq]

theorem count_set_hits (l : List (Option Nat)) (j : Nat) (y x : Option Nat)
    (h : l[j]? = some y) (i : Nat) :
    (l.set j x).count (some i) + hits y i = l.count (some i) + hits x i := by
  induction l generalizing j with
  | nil => simp at h
  | cons a t ih =>
    cases j with
    | zero =>
      simp only [List.getElem?_cons_zero, Option.some.injEq] at h
      subst h
      simp only [List.set_cons_zero, count_cons_hits]
      omega
    | succ j =>
      simp only [List.getElem?_cons_succ] at h
      simp only [List.set_cons_succ, count_cons_hits]
      have := ih j h
      omega

theorem count_eraseIdx_hits (l : List (Option Nat)) (j : Nat) (y : Option Nat)
    (h : l[j]? = some y) (i : Nat) :
    (l.eraseIdx j).count (some i) + hits y i = l.count (some i) := by
  induction l generalizing j with
  | nil => simp at h
  | cons a t ih =>
    cases j with
    | zero =>
      simp only [List.getElem?_cons_zero, Option.some.injEq] at h
      subst h
      simp only [List.eraseIdx_cons_zero, count_cons_hits]
    | succ j =>
      simp only [List.getElem?_cons_succ] at h
      simp only [List.eraseIdx_cons_succ, count_cons_hits]
      have := ih j h
      omega

theorem map_eraseIdx_comm {α β : Type} (f : α → β) (l : List α) (j : Nat) :
    (l.eraseIdx j).map f = (l.map f).eraseIdx j := by
  induction l generalizing j with
  | nil => simp
  | cons a t ih =>
    cases j with
    | zero => simp
    | succ j => simp [ih j]

theorem count_mem_pos (l : List (Option Nat)) (j : Nat) (y : Option Nat) (i : Nat)
    (h : l[j]? = some y) (hy : y = some i) : 0 < l.count (some i) := by
  rw [List.count_pos_iff]
  subst hy
  obtain ⟨hj, he⟩ := List.getElem?_eq_some.mp h
  exact he ▸ List.getElem_mem hj

/-! ### Invariant-preservation lemmas for the heap primitives -/

theorem cellOk_some {s : State} {cnt : Nat → Nat} {i : Nat} {c : Cell}
    (he : s.cells[i]? = some (some c)) :
    cellOk s cnt i ↔ c.ref_count = (cnt i : Int) := by
  unfold cellOk
  rw [he]

theorem cellOk_dead {s : State} {cnt : Nat → Nat} {i : Nat}
    (he : s.cells[i]? = some none) : cellOk s cnt i ↔ cnt i = 0 := by
  unfold cellOk
  rw [he]

theorem cellOk_noSlot {s : State} {cnt : Nat → Nat} {i : Nat}
    (he : s.cells[i]? = none) : cellOk s cnt i ↔ cnt i = 0 := by
  unfold cellOk
  rw [he]

theorem cellOk_of_eq {s t : State} {cnt : Nat → Nat} {i : Nat}
    (he : t.cells[i]? = s.cells[i]?) (h : cellOk s cnt i) : cellOk t cnt i := by
  unfold cellOk at h ⊢
  rw [he]
  exact h

theorem cellOk_cnt_congr {s : State} {cnt cnt2 : Nat → Nat} {i : Nat}
    (he : cnt i = cnt2 i) (h : cellOk s cnt i) : cellOk s cnt2 i := by
  unfold cellOk at h ⊢
  rw [← he]
  exact h

theorem stateCount_congr {s : State} {cnt cnt2 : Nat → Nat}
    (h : StateCount s cnt) (he : ∀ i, cnt i = cnt2 i) : StateCount s cnt2 :=
  fun i => cellOk_cnt_congr (he i) (h i)

theorem stateCount_cells_eq {s t : State} {cnt : Nat → Nat}
    (hc : t.cells = s.cells) (h : StateCount s cnt) : StateCount t cnt :=
  fun i => cellOk_of_eq (by rw [hc]) (h i)

theorem stateCount_live {s : State} {cnt : Nat → Nat} {i : Nat}
    (h : StateCount s cnt) (hi : 0 < cnt i) :
    ∃ c, s.cells[i]? = some (some c) := by
  have hc := h i
  rcases he : s.cells[i]? with _ | oc
  · rw [cellOk_noSlot he] at hc
    omega
  · rcases oc with _ | c
    · rw [cellOk_dead he] at hc
      omega
    · exact ⟨c, rfl⟩

theorem stateCount_cbReset {s : State} {cnt : Nat → Nat} (j : Nat)
    (h : StateCount s cnt) : StateCount (cbReset s j) cnt := by
  rcases he : s.cells[j]? with _ | oc
  · exact stateCount_cells_eq (by simp [cbReset, he]) h
  · rcases oc with _ | c
    · exact stateCount_cells_eq (by simp [cbReset, he]) h
    · intro i
      have hi := h i
      by_cases hij : j = i
      · subst hij
        have hlen : j < s.cells.length := (List.getElem?_eq_some.mp he).1
        rw [cellOk_some he] at hi
        have he2 : (cbReset s j).cells[j]? = some (some { c with px := none }) := by
          simp [cbReset, he, List.getElem?_set_self hlen]
        rw [cellOk_some he2]
        exact hi
      · refine cellOk_of_eq ?_ hi
        simp [cbReset, he, List.getElem?_set_ne hij]

theorem stateCount_alloc {s : State} {cnt : Nat → Nat} (p : Option Nat)
    (h : StateCount s cnt) : StateCount (allocCell s p).1 cnt := by
  intro i
  have hi := h i
  rcases Nat.lt_trichotomy i s.cells.length with hlt | heq | hgt
  · refine cellOk_of_eq ?_ hi
    show (s.cells ++ [some ⟨0, p⟩])[i]? = s.cells[i]?
    rw [List.getElem?_append, if_pos hlt]
  · subst heq
    have hpre : s.cells[s.cells.length]? = none := by simp
    rw [cellOk_noSlot hpre] at hi
    have he2 : (allocCell s p).1.cells[s.cells.length]? = some (some ⟨0, p⟩) :=
      List.getElem?_concat_length _ _
    rw [cellOk_some he2]
    simp [hi]
  · have hpre : s.cells[i]? = none := by
      rw [List.getElem?_eq_none]
      omega
    rw [cellOk_noSlot hpre] at hi
    have he2 : (allocCell s p).1.cells[i]? = none := by
      rw [List.getElem?_eq_none]
      simp only [allocCell, List.length_append, List.length_cons, List.length_nil]
      omega
    rw [cellOk_noSlot he2]
    exact hi

theorem stateCount_acquire {s : State} {cnt : Nat → Nat} {pc : Option Nat}
    (h : StateCount s cnt)
    (hl : ∀ i, pc = some i → ∃ c, s.cells[i]? = some (some c)) :
    StateCount (ipAcquire s pc) (fun i => cnt i + hits pc i) := by
  rcases pc with _ | a
  · exact stateCount_congr h (fun i => by simp [hits])
  · obtain ⟨c, hc⟩ := hl a rfl
    have ha : a < s.cells.length := (List.getElem?_eq_some.mp hc).1
    intro i
    have hi := h i
    by_cases hia : a = i
    · subst hia
      rw [cellOk_some hc] at hi
      have he2 : (ipAcquire s (some a)).cells[a]? =
          some (some { c with ref_count := c.ref_count + 1 }) := by
        simp [ipAcquire, addRef, hc, List.getElem?_set_self ha]
      rw [cellOk_some he2]
      simp only [hits, if_pos rfl]
      push_cast
      omega
    · refine cellOk_of_eq ?_ (cellOk_cnt_congr (by simp [hits, hia]) hi)
      simp [ipAcquire, addRef, hc, List.getElem?_set_ne hia]

theorem stateCount_release {s : State} {cnt : Nat → Nat} {pc : Option Nat}
    (h : StateCount s (fun i => cnt i + hits pc i)) :
    StateCount (ipRelease s pc) cnt := by
  rcases pc with _ | a
  · exact stateCount_congr h (fun i => by simp [hits])
  · have ha := h a
    rcases he : s.cells[a]? with _ | oc
    · rw [cellOk_noSlot he] at ha
      simp [hits] at ha
    · rcases oc with _ | c
      · rw [cellOk_dead he] at ha
        simp [hits] at ha
      · rw [cellOk_some he] at ha
        simp only [hits, if_pos rfl] at ha
        push_cast at ha
        have halen : a < s.cells.length := (List.getElem?_eq_some.mp he).1
        intro i
        have hi := h i
        by_cases hia : a = i
        · subst hia
          by_cases hz : c.ref_count - 1 = 0
          · have he2 : (ipRelease s (some a)).cells[a]? = some none := by
              simp [ipRelease, releaseRef, he, hz, List.getElem?_set_self halen]
            rw [cellOk_dead he2]
            omega
          · have he2 : (ipRelease s (some a)).cells[a]? =
                some (some { c with ref_count := c.ref_count - 1 }) := by
              simp [ipRelease, releaseRef, he, hz, List.getElem?_set_self halen]
            rw [cellOk_some he2]
            push_cast
            omega
        · refine cellOk_of_eq ?_ (cellOk_cnt_congr (by simp [hits, hia]) hi)
          by_cases hz : c.ref_count - 1 = 0 <;>
            simp [ipRelease, releaseRef, he, hz, List.getElem?_set_ne hia]

theorem stateCount_destructor {s : State} {cnt : Nat → Nat} {o : Owner}
    (h : StateCount s (fun i => cnt i + hits o.pc i)) :
    StateCount (Owner.destructor s o) cnt := by
  rcases hpx : o.px with _ | r <;> rcases hpc : o.pc with _ | a <;>
    simp only [Owner.destructor, hpx, hpc] <;> rw [hpc] at h
  · exact stateCount_release h
  · exact stateCount_release (stateCount_cbReset a h)
  · exact stateCount_release (stateCount_cells_eq rfl h)
  · exact stateCount_release (stateCount_cbReset a (stateCount_cells_eq rfl h))

/-! ### Census lemmas -/

theorem handleCount_mk (st : State) (ow : List Owner) (obs : List Observer)
    (i : Nat) : handleCount ⟨st, ow, obs⟩ i = census ow obs i := rfl

theorem census_owners_append (ow : List Owner) (obs : List Observer)
    (o : Owner) (i : Nat) :
    census (ow ++ [o]) obs i = census ow obs i + hits o.pc i := by
  simp only [census, List.map_append, List.map_cons, List.map_nil,
    List.count_append, count_singleton_hits]
  omega

theorem census_obs_append (ow : List Owner) (obs : List Observer)
    (w : Observer) (i : Nat) :
    census ow (obs ++ [w]) i = census ow obs i + hits w.pc i := by
  simp only [census, List.map_append, List.map_cons, List.map_nil,
    List.count_append, count_singleton_hits]
  omega

theorem census_owners_set (ow : List Owner) (obs : List Observer)
    (j : Nat) (o nw : Owner) (h : ow[j]? = some o) (i : Nat) :
    census (ow.set j nw) obs i + hits o.pc i
      = census ow obs i + hits nw.pc i := by
  have hmap : (ow.map Owner.pc)[j]? = some o.pc := by simp [h]
  have hcnt := count_set_hits (ow.map Owner.pc) j o.pc nw.pc hmap i
  rw [← List.map_set] at hcnt
  simp only [census, List.count_append]
  omega

theorem census_obs_set (ow : List Owner) (obs : List Observer)
    (k : Nat) (w nw : Observer) (h : obs[k]? = some w) (i : Nat) :
    census ow (obs.set k nw) i + hits w.pc i
      = census ow obs i + hits nw.pc i := by
  have hmap : (obs.map Observer.pc)[k]? = some w.pc := by simp [h]
  have hcnt := count_set_hits (obs.map Observer.pc) k w.pc nw.pc hmap i
  rw [← List.map_set] at hcnt
  simp only [census, List.count_append]
  omega

theorem census_owners_erase (ow : List Owner) (obs : List Observer)
    (j : Nat) (o : Owner) (h : ow[j]? = some o) (i : Nat) :
    census (ow.eraseIdx j) obs i + hits o.pc i = census ow obs i := by
  have hmap : (ow.map Owner.pc)[j]? = some o.pc := by simp [h]
  have hcnt := count_eraseIdx_hits (ow.map Owner.pc) j o.pc hmap i
  rw [← map_eraseIdx_comm] at hcnt
  simp only [census, List.count_append]
  omega

theorem census_obs_erase (ow : List Owner) (obs : List Observer)
    (k : Nat) (w : Observer) (h : obs[k]? = some w) (i : Nat) :
    census ow (obs.eraseIdx k) i + hits w.pc i = census ow obs i := by
  have hmap : (obs.map Observer.pc)[k]? = some w.pc := by simp [h]
  have hcnt := count_eraseIdx_hits (obs.map Observer.pc) k w.pc hmap i
  rw [← map_eraseIdx_comm] at hcnt
  simp only [census, List.count_append]
  omega

theorem live_of_handle_owner {st : State} {ow : List Owner} {obs : List Observer}
    (h : StateCount st (handleCount ⟨st, ow, obs⟩)) {j : Nat} {o : Owner}
    (hj : ow[j]? = some o) :
    ∀ i, o.pc = some i → ∃ cell, st.cells[i]? = some (some cell) := by
  intro i hpc
  apply stateCount_live h
  have hmap : (ow.map Owner.pc)[j]? = some o.pc := by simp [hj]
  have hpos := count_mem_pos (ow.map Owner.pc) j o.pc i hmap hpc
  simp only [handleCount_mk, census, List.count_append]
  omega

theorem live_of_handle_obs {st : State} {ow : List Owner} {obs : List Observer}
    (h : StateCount st (handleCount ⟨st, ow, obs⟩)) {k : Nat} {w : Observer}
    (hk : obs[k]? = some w) :
    ∀ i, w.pc = some i → ∃ cell, st.cells[i]? = some (some cell) := by
  intro i hpc
  apply stateCount_live h
  have hmap : (obs.map Observer.pc)[k]? = some w.pc := by simp [hk]
  have hpos := count_mem_pos (obs.map Observer.pc) k w.pc i hmap hpc
  simp only [handleCount_mk, census, List.count_append]
  omega

/-- Auxiliary liveness facts for a freshly allocated cell. -/
theorem fresh_cell_live (st : State) (p : Option Nat) :
    ∀ i, (some st.cells.length : Option Nat) = some i →
      ∃ cell, (allocCell st p).1.cells[i]? = some (some cell) := by
  intro i hi
  obtain rfl : st.cells.length = i := Option.some.inj hi
  exact ⟨⟨0, p⟩, List.getElem?_concat_length _ _⟩

/-- Every public-API operation preserves the reference-count invariant. -/
theorem inv_step (c : Config) (op : Op) (h : Inv c) : Inv (step c op) := by
  obtain ⟨st, ow, obs⟩ := c
  simp only [Inv] at h
  cases op with
  | ownerDefault =>
    simp only [step, Inv]
    refine stateCount_congr h ?_
    intro i
    simp only [handleCount_mk, census_owners_append]
    simp [Owner.construct_default, hits]
  | ownerNew p d =>
    simp only [step, Owner.construct_ptr_eq, Inv]
    have h2 := stateCount_acquire (stateCount_alloc p h) (fresh_cell_live st p)
    refine stateCount_congr h2 ?_
    intro i
    simp only [handleCount_mk, census_owners_append]
  | ownerMoveNew k =>
    rcases hk : ow[k]? with _ | o
    · simp only [step, hk]
      exact h
    · simp only [step, hk, Owner.move_construct, Inv]
      refine stateCount_congr h ?_
      intro i
      simp only [handleCount_mk, census_owners_append]
      have h1 := census_owners_set ow obs k o ⟨none, o.pd, none⟩ hk i
      dsimp only at h1 ⊢
      have h0 : hits (none : Option Nat) i = 0 := by simp [hits]
      omega
  | ownerMoveAssign j k =>
    by_cases hjk : j = k
    · simp only [step, if_pos hjk]
      exact h
    · rcases hj : ow[j]? with _ | t
      · simp only [step, if_neg hjk, hj]
        exact h
      · rcases hk : ow[k]? with _ | r
        · simp only [step, if_neg hjk, hj, hk]
          exact h
        · simp only [step, if_neg hjk, hj, hk, Owner.move_assign_eq, Inv]
          refine stateCount_destructor (stateCount_congr h ?_)
          intro i
          simp only [handleCount_mk]
          have h1 := census_owners_set ow obs j t ⟨r.px, r.pd, r.pc⟩ hj i
          have hj2 : (ow.set j (⟨r.px, r.pd, r.pc⟩ : Owner))[k]? = some r := by
            rw [List.getElem?_set_ne hjk]
            exact hk
          have h2 := census_owners_set (ow.set j ⟨r.px, r.pd, r.pc⟩) obs k r
            ⟨none, r.pd, none⟩ hj2 i
          have h0 : hits (none : Option Nat) i = 0 := by simp [hits]
          dsimp only at h1 h2 ⊢
          omega
  | ownerAssignNull j =>
    rcases hj : ow[j]? with _ | t
    · simp only [step, hj]
      exact h
    · simp only [step, hj, Owner.assign_null_eq, Inv]
      refine stateCount_destructor (stateCount_congr h ?_)
      intro i
      simp only [handleCount_mk]
      have h1 := census_owners_set ow obs j t Owner.construct_default hj i
      have h0 : hits Owner.construct_default.pc i = 0 := by
        simp [Owner.construct_default, hits]
      omega
  | ownerRelease j =>
    rcases hj : ow[j]? with _ | t
    · simp only [step, hj]
      exact h
    · simp only [step, hj, Owner.release_eq, Inv]
      refine stateCount_destructor (stateCount_congr h ?_)
      intro i
      simp only [handleCount_mk]
      have h1 := census_owners_set ow obs j t Owner.construct_default hj i
      have h0 : hits Owner.construct_default.pc i = 0 := by
        simp [Owner.construct_default, hits]
      omega
  | ownerReset j p =>
    rcases hj : ow[j]? with _ | t
    · simp only [step, hj]
      exact h
    · simp only [step, hj, Owner.reset_eq, Inv]
      have h2 := stateCount_acquire (stateCount_alloc p h) (fresh_cell_live st p)
      refine stateCount_destructor (stateCount_congr h2 ?_)
      intro i
      simp only [handleCount_mk]
      have h1 := census_owners_set ow obs j t ⟨p, 0, some st.cells.length⟩ hj i
      dsimp only at h1 ⊢
      omega
  | ownerSwap j k =>
    by_cases hjk : j = k
    · simp only [step, if_pos hjk]
      exact h
    · rcases hj : ow[j]? with _ | a
      · simp only [step, if_neg hjk, hj]
        exact h
      · rcases hk : ow[k]? with _ | b
        · simp only [step, if_neg hjk, hj, hk]
          exact h
        · simp only [step, if_neg hjk, hj, hk, Owner.swap, Inv]
          refine stateCount_congr h ?_
          intro i
          simp only [handleCount_mk]
          have h1 := census_owners_set ow obs j a b hj i
          have hj2 : (ow.set j b)[k]? = some b := by
            rw [List.getElem?_set_ne hjk]
            exact hk
          have h2 := census_owners_set (ow.set j b) obs k b a hj2 i
          omega
  | ownerDestroy j =>
    rcases hj : ow[j]? with _ | t
    · simp only [step, hj]
      exact h
    · simp only [step, hj, Inv]
      refine stateCount_destructor (stateCount_congr h ?_)
      intro i
      simp only [handleCount_mk]
      have h1 := census_owners_erase ow obs j t hj i
      omega
  | obsDefault =>
    simp only [step, Inv]
    refine stateCount_congr h ?_
    intro i
    simp only [handleCount_mk, census_obs_append]
    simp [Observer.construct_default, hits]
  | obsFromOwner j =>
    rcases hj : ow[j]? with _ | o
    · simp only [step, hj]
      exact h
    · simp only [step, hj, Observer.construct_from_owner_eq, Inv]
      have h2 := stateCount_acquire h (live_of_handle_owner h hj)
      refine stateCount_congr h2 ?_
      intro i
      simp only [handleCount_mk, census_obs_append]
  | obsCopyNew k =>
    rcases hk : obs[k]? with _ | w
    · simp only [step, hk]
      exact h
    · simp only [step, hk, Observer.construct_copy_eq, Inv]
      have h2 := stateCount_acquire h (live_of_handle_obs h hk)
      refine stateCount_congr h2 ?_
      intro i
      simp only [handleCount_mk, census_obs_append]
  | obsMoveNew k =>
    rcases hk : obs[k]? with _ | w
    · simp only [step, hk]
      exact h
    · simp only [step, hk, Observer.construct_move, Inv]
      refine stateCount_congr h ?_
      intro i
      simp only [handleCount_mk, census_obs_append]
      have h1 := census_obs_set ow obs k w ⟨none⟩ hk i
      have h0 : hits (none : Option Nat) i = 0 := by simp [hits]
      dsimp only at h1 ⊢
      omega
  | obsCopyAssign k l =>
    rcases hk : obs[k]? with _ | t
    · simp only [step, hk]
      exact h
    · rcases hl : obs[l]? with _ | r
      · simp only [step, hk, hl]
        exact h
      · simp only [step, hk, hl, Observer.copy_assign_eq, Inv]
        have h2 := stateCount_acquire h (live_of_handle_obs h hl)
        refine stateCount_release (stateCount_congr h2 ?_)
        intro i
        simp only [handleCount_mk]
        have h1 := census_obs_set ow obs k t ⟨r.pc⟩ hk i
        dsimp only at h1 ⊢
        omega
  | obsMoveAssign k l =>
    by_cases hkl : k = l
    · simp only [step, if_pos hkl]
      exact h
    · rcases hk : obs[k]? with _ | t
      · simp only [step, if_neg hkl, hk]
        exact h
      · rcases hl : obs[l]? with _ | r
        · simp only [step, if_neg hkl, hk, hl]
          exact h
        · simp only [step, if_neg hkl, hk, hl, Observer.move_assign_obs_eq, Inv]
          refine stateCount_release (stateCount_congr h ?_)
          intro i
          simp only [handleCount_mk]
          have h1 := census_obs_set ow obs k t ⟨r.pc⟩ hk i
          have hl2 : (obs.set k (⟨r.pc⟩ : Observer))[l]? = some r := by
            rw [List.getElem?_set_ne hkl]
            exact hl
          have h2 := census_obs_set ow (obs.set k ⟨r.pc⟩) l r ⟨none⟩ hl2 i
          have h0 : hits (none : Option Nat) i = 0 := by simp [hits]
          dsimp only at h1 h2 ⊢
          omega
  | obsAssignFromOwner k j =>
    rcases hk : obs[k]? with _ | t
    · simp only [step, hk]
      exact h
    · rcases hj : ow[j]? with _ | o
      · simp only [step, hk, hj]
        exact h
      · simp only [step, hk, hj, Observer.assign_from_owner_eq, Inv]
        have h2 := stateCount_acquire h (live_of_handle_owner h hj)
        refine stateCount_release (stateCount_congr h2 ?_)
        intro i
        simp only [handleCount_mk]
        have h1 := census_obs_set ow obs k t ⟨o.pc⟩ hk i
        dsimp only at h1 ⊢
        omega
  | obsReset k =>
    rcases hk : obs[k]? with _ | t
    · simp only [step, hk]
      exact h
    · simp only [step, hk, Observer.reset_obs_eq, Inv]
      refine stateCount_release (stateCount_congr h ?_)
      intro i
      simp only [handleCount_mk]
      have h1 := census_obs_set ow obs k t ⟨none⟩ hk i
      have h0 : hits (none : Option Nat) i = 0 := by simp [hits]
      dsimp only at h1 ⊢
      omega
  | obsSwap k l =>
    by_cases hkl : k = l
    · simp only [step, if_pos hkl]
      exact h
    · rcases hk : obs[k]? with _ | a
      · simp only [step, if_neg hkl, hk]
        exact h
      · rcases hl : obs[l]? with _ | b
        · simp only [step, if_neg hkl, hk, hl]
          exact h
        · simp only [step, if_neg hkl, hk, hl, Observer.swap, Inv]
          refine stateCount_congr h ?_
          intro i
          simp only [handleCount_mk]
          have h1 := census_obs_set ow obs k a b hk i
          have hk2 : (obs.set k b)[l]? = some b := by
            rw [List.getElem?_set_ne hkl]
            exact hl
          have h2 := census_obs_set ow (obs.set k b) l b a hk2 i
          omega
  | obsDestroy k =>
    rcases hk : obs[k]? with _ | t
    · simp only [step, hk]
      exact h
    · simp only [step, hk, Observer.destructor_eq, Inv]
      refine stateCount_release (stateCount_congr h ?_)
      intro i
      simp only [handleCount_mk]
      have h1 := census_obs_erase ow obs k t hk i
      omega

/-! ### Behavioral lemmas about the heap primitives -/

theorem cbGet_cbReset_self (s : State) (i : Nat) : cbGet (cbReset s i) i = none := by
  rcases he : s.cells[i]? with _ | oc
  · simp [cbGet, cbReset, he]
  · rcases oc with _ | c
    · simp [cbGet, cbReset, he]
    · have hlen := (List.getElem?_eq_some.mp he).1
      simp [cbGet, cbReset, he, List.getElem?_set_self hlen]

theorem cbGet_cbReset_ne (s : State) {j i : Nat} (hij : j ≠ i) :
    cbGet (cbReset s j) i = cbGet s i := by
  rcases he : s.cells[j]? with _ | oc
  · simp [cbGet, cbReset, he]
  · rcases oc with _ | c
    · simp [cbGet, cbReset, he]
    · simp [cbGet, cbReset, he, List.getElem?_set_ne hij]

theorem cbGet_releaseRef_of_none (s : State) (j : Nat) {i : Nat}
    (h : cbGet s i = none) : cbGet (releaseRef s j) i = none := by
  rcases he : s.cells[j]? with _ | oc
  · simpa [cbGet, releaseRef, he] using h
  · rcases oc with _ | c
    · simpa [cbGet, releaseRef, he] using h
    · by_cases hij : j = i
      · subst hij
        have hlen := (List.getElem?_eq_some.mp he).1
        by_cases hz : c.ref_count - 1 = 0
        · simp [cbGet, releaseRef, he, hz, List.getElem?_set_self hlen]
        · have hpx : c.px = none := by simpa [cbGet, he] using h
          simp [cbGet, releaseRef, he, hz, List.getElem?_set_self hlen, hpx]
      · by_cases hz : c.ref_count - 1 = 0 <;>
          simpa [cbGet, releaseRef, he, hz, List.getElem?_set_ne hij] using h

theorem cbGet_releaseRef_ne (s : State) {j i : Nat} (hij : j ≠ i) :
    cbGet (releaseRef s j) i = cbGet s i := by
  rcases he : s.cells[j]? with _ | oc
  · simp [cbGet, releaseRef, he]
  · rcases oc with _ | c
    · simp [cbGet, releaseRef, he]
    · by_cases hz : c.ref_count - 1 = 0 <;>
        simp [cbGet, releaseRef, he, hz, List.getElem?_set_ne hij]

theorem cbGet_addRef (s : State) (j i : Nat) : cbGet (addRef s j) i = cbGet s i := by
  rcases he : s.cells[j]? with _ | oc
  · simp [cbGet, addRef, he]
  · rcases oc with _ | c
    · simp [cbGet, addRef, he]
    · by_cases hij : j = i
      · subst hij
        have hlen := (List.getElem?_eq_some.mp he).1
        simp [cbGet, addRef, he, List.getElem?_set_self hlen]
      · simp [cbGet, addRef, he, List.getElem?_set_ne hij]

theorem cbGet_ipAcquire (s : State) (pc : Option Nat) (i : Nat) :
    cbGet (ipAcquire s pc) i = cbGet s i := by
  cases pc <;> simp [ipAcquire, cbGet_addRef]

theorem cbGet_destructor_self (s : State) (o : Owner) {i : Nat}
    (hpc : o.pc = some i) : cbGet (Owner.destructor s o) i = none := by
  rcases hpx : o.px with _ | r <;>
    simp only [Owner.destructor, hpx, hpc, ipRelease] <;>
    exact cbGet_releaseRef_of_none _ _ (cbGet_cbReset_self _ _)

theorem cbGet_destructor_ne (s : State) (o : Owner) {i : Nat}
    (hne : o.pc ≠ some i) : cbGet (Owner.destructor s o) i = cbGet s i := by
  rcases hpc : o.pc with _ | j
  · rcases hpx : o.px with _ | r <;> simp [Owner.destructor, hpx, hpc, ipRelease, cbGet]
  · have hji : j ≠ i := by
      intro hq
      exact hne (by rw [hpc, hq])
    rcases hpx : o.px with _ | r <;>
      simp only [Owner.destructor, hpx, hpc, ipRelease] <;>
      (rw [cbGet_releaseRef_ne _ hji, cbGet_cbReset_ne _ hji]; try rfl)

theorem cbGet_alloc_lt (s : State) (p : Option Nat) {i : Nat}
    (hi : i < s.cells.length) : cbGet (allocCell s p).1 i = cbGet s i := by
  have he : (allocCell s p).1.cells[i]? = s.cells[i]? := by
    show (s.cells ++ [some ⟨0, p⟩])[i]? = s.cells[i]?
    rw [List.getElem?_append, if_pos hi]
  simp [cbGet, he]

theorem cbGet_alloc_self (s : State) (p : Option Nat) :
    cbGet (allocCell s p).1 s.cells.length = p := by
  have he : (allocCell s p).1.cells[s.cells.length]? = some (some ⟨0, p⟩) :=
    List.getElem?_concat_length _ _
  simp [cbGet, he]

theorem releaseRef_events (s : State) (i : Nat) :
    (releaseRef s i).events = s.events := by
  rcases he : s.cells[i]? with _ | oc
  · simp [releaseRef, he]
  · rcases oc with _ | c
    · simp [releaseRef, he]
    · by_cases hz : c.ref_count - 1 = 0 <;> simp [releaseRef, he, hz]

theorem destructor_events (s : State) (o : Owner) :
    (Owner.destructor s o).events =
      s.events ++ (match o.px with
        | some r => [Event.destroy o.pd r]
        | none => [])
      ++ (match o.pc with
        | some i => [Event.clear i]
        | none => []) := by
  rcases hpx : o.px with _ | r <;> rcases hpc : o.pc with _ | a <;>
    simp [Owner.destructor, hpx, hpc, ipRelease, releaseRef_events, cbReset]

theorem releaseRef_length (s : State) (i : Nat) :
    (releaseRef s i).cells.length = s.cells.length := by
  rcases he : s.cells[i]? with _ | oc
  · simp [releaseRef, he]
  · rcases oc with _ | c
    · simp [releaseRef, he]
    · by_cases hz : c.ref_count - 1 = 0 <;> simp [releaseRef, he, hz]

theorem cbReset_length (s : State) (i : Nat) :
    (cbReset s i).cells.length = s.cells.length := by
  rcases he : s.cells[i]? with _ | oc
  · simp [cbReset, he]
  · rcases oc with _ | c
    · simp [cbReset, he]
    · simp [cbReset, he]

theorem destructor_length (s : State) (o : Owner) :
    (Owner.destructor s o).cells.length = s.cells.length := by
  rcases hpx : o.px with _ | r <;> rcases hpc : o.pc with _ | a <;>
    simp [Owner.destructor, hpx, hpc, ipRelease, releaseRef_length, cbReset_length]

theorem alloc_events (s : State) (p : Option Nat) :
    (allocCell s p).1.events = s.events := rfl

theorem addRef_events (s : State) (i : Nat) : (addRef s i).events = s.events := by
  rcases he : s.cells[i]? with _ | oc
  · simp [addRef, he]
  · rcases oc with _ | c <;> simp [addRef, he]

theorem ipAcquire_events (s : State) (pc : Option Nat) :
    (ipAcquire s pc).events = s.events := by
  cases pc <;> simp [ipAcquire, addRef_events]

theorem alloc_length (s : State) (p : Option Nat) :
    (allocCell s p).1.cells.length = s.cells.length + 1 := by
  simp [allocCell]

theorem addRef_length (s : State) (i : Nat) :
    (addRef s i).cells.length = s.cells.length := by
  rcases he : s.cells[i]? with _ | oc
  · simp [addRef, he]
  · rcases oc with _ | c <;> simp [addRef, he]

theorem ipAcquire_length (s : State) (pc : Option Nat) :
    (ipAcquire s pc).cells.length = s.cells.length := by
  cases pc <;> simp [ipAcquire, addRef_length]

/-- A well-formed owner never addresses the not-yet-allocated slot. -/
theorem wf_ne_len {s : State} {o : Owner} (hwf : Owner.wf s o = true) :
    o.pc ≠ some s.cells.length := by
  rcases hpc : o.pc with _ | i
  · simp
  · have hlt : i < s.cells.length := by
      simpa [Owner.wf, hpc] using hwf
    simp only [Ne, Option.some.injEq]
    omega

/-- After the owner's destructor runs, any observer bound to the owner's cell
(or unbound, when the owner had none) is expired with nothing to read. -/
theorem observer_dead_after_destructor (s : State) (o : Owner) (w : Observer)
    (hw : w.pc = o.pc) :
    Observer.expired (Owner.destructor s o) w = true ∧
    Observer.try_get (Owner.destructor s o) w = none := by
  obtain ⟨wpc⟩ := w
  dsimp only at hw
  subst hw
  rcases hpc : o.pc with _ | i
  · simp [Observer.expired, Observer.try_get]
  · have hg := cbGet_destructor_self s o hpc
    simp [Observer.expired, Observer.try_get, hg]

/-! ### The claims -/

/-- Claim C1: for every owner holding object-ref `r` (any destroy-policy),
`release()` returns `r`; afterwards the owner holds no object and no cell, the
destroy-policy is never invoked (the only logged event is the clear of the
former cell), and every observer snapshotted from the owner beforehand (same
`pc`) reports `expired() = true` and `try_get() = none`. -/
theorem claim_C1 (s : State) (o : Owner) (r : Nat) (w : Observer)
    (hr : o.px = some r) (hw : w.pc = o.pc) :
    (Owner.release s o).2.1 = some r ∧
    (Owner.release s o).2.2.px = none ∧
    (Owner.release s o).2.2.pc = none ∧
    (Owner.release s o).1.events =
      s.events ++ (match o.pc with
        | some i => [Event.clear i]
        | none => []) ∧
    Observer.expired (Owner.release s o).1 w = true ∧
    Observer.try_get (Owner.release s o).1 w = none := by
  have hobs := observer_dead_after_destructor s (⟨none, o.pd, o.pc⟩ : Owner) w
    (by simpa using hw)
  simp only [Owner.release_eq]
  refine ⟨hr, rfl, rfl, ?_, hobs.1, hobs.2⟩
  rw [destructor_events]
  simp

/-- Claim C1 witness: a concrete owner over a one-cell heap. -/
theorem claim_C1_witness :
    ((⟨some 5, 7, some 0⟩ : Owner).px = some 5 ∧
      (⟨some 0⟩ : Observer).pc = (⟨some 5, 7, some 0⟩ : Owner).pc) ∧
    ((Owner.release ⟨[some ⟨2, some 5⟩], []⟩ ⟨some 5, 7, some 0⟩).2.1 = some 5 ∧
      (Owner.release ⟨[some ⟨2, some 5⟩], []⟩ ⟨some 5, 7, some 0⟩).2.2.px = none ∧
      (Owner.release ⟨[some ⟨2, some 5⟩], []⟩ ⟨some 5, 7, some 0⟩).2.2.pc = none ∧
      (Owner.release ⟨[some ⟨2, some 5⟩], []⟩ ⟨some 5, 7, some 0⟩).1.events =
        ([] : List Event) ++ (match (some 0 : Option Nat) with
          | some i => [Event.clear i]
          | none => []) ∧
      Observer.expired (Owner.release ⟨[some ⟨2, some 5⟩], []⟩ ⟨some 5, 7, some 0⟩).1
        ⟨some 0⟩ = true ∧
      Observer.try_get (Owner.release ⟨[some ⟨2, some 5⟩], []⟩ ⟨some 5, 7, some 0⟩).1
        ⟨some 0⟩ = none) :=
  ⟨⟨rfl, rfl⟩, claim_C1 ⟨[some ⟨2, some 5⟩], []⟩ ⟨some 5, 7, some 0⟩ 5 ⟨some 0⟩ rfl rfl⟩

/-- Claim C3: the owner's destructor first logs the destroy-policy invocation
on the held object (skipped when absent) and then the clear of the held cell
(skipped when absent), in that order; afterwards every observer bound to that
owner's cell reports `expired() = true` and `try_get() = none`. -/
theorem claim_C3 (s : State) (o : Owner) (w : Observer) (hw : w.pc = o.pc) :
    (Owner.destructor s o).events =
      s.events ++ (match o.px with
        | some r => [Event.destroy o.pd r]
        | none => [])
      ++ (match o.pc with
        | some i => [Event.clear i]
        | none => []) ∧
    Observer.expired (Owner.destructor s o) w = true ∧
    Observer.try_get (Owner.destructor s o) w = none := by
  have hobs := observer_dead_after_destructor s o w hw
  exact ⟨destructor_events s o, hobs.1, hobs.2⟩

/-- Claim C3 witness: destroying a concrete owner logs destroy-then-clear and
expires its observer. -/
theorem claim_C3_witness :
    ((⟨some 0⟩ : Observer).pc = (⟨some 5, 7, some 0⟩ : Owner).pc) ∧
    ((Owner.destructor ⟨[some ⟨2, some 5⟩], []⟩ ⟨some 5, 7, some 0⟩).events =
      ([] : List Event) ++ [Event.destroy 7 5] ++ [Event.clear 0] ∧
      Observer.expired (Owner.destructor ⟨[some ⟨2, some 5⟩], []⟩ ⟨some 5, 7, some 0⟩)
        ⟨some 0⟩ = true ∧
      Observer.try_get (Owner.destructor ⟨[some ⟨2, some 5⟩], []⟩ ⟨some 5, 7, some 0⟩)
        ⟨some 0⟩ = none) :=
  ⟨rfl, claim_C3 ⟨[some ⟨2, some 5⟩], []⟩ ⟨some 5, 7, some 0⟩ ⟨some 0⟩ rfl⟩

/-- Claim C2: `reset(p2)` logs the destroy-policy invocation on the current
object (if present) and the clear of the current cell (if present), allocates
a brand-new cell holding `p2` — even when `p2` is null — and hands it to the
owner; every observer snapshotted beforehand (same `pc`, in range) is expired
with `try_get() = none`, while an observer snapshotted from the owner after
the call reads `try_get() = p2`. -/
theorem claim_C2 (s : State) (o : Owner) (p2 : Option Nat) (w : Observer)
    (hw : w.pc = o.pc) (hwf : Owner.wf s o = true) :
    (Owner.reset s o p2).2 = ⟨p2, 0, some s.cells.length⟩ ∧
    (Owner.reset s o p2).1.events =
      s.events ++ (match o.px with
        | some r => [Event.destroy o.pd r]
        | none => [])
      ++ (match o.pc with
        | some i => [Event.clear i]
        | none => []) ∧
    (Owner.reset s o p2).1.cells.length = s.cells.length + 1 ∧
    cbGet (Owner.reset s o p2).1 s.cells.length = p2 ∧
    Observer.expired (Owner.reset s o p2).1 w = true ∧
    Observer.try_get (Owner.reset s o p2).1 w = none ∧
    Observer.try_get
      (Observer.construct_from_owner (Owner.reset s o p2).1 (Owner.reset s o p2).2).1
      (Observer.construct_from_owner (Owner.reset s o p2).1 (Owner.reset s o p2).2).2
      = p2 := by
  have hobs := observer_dead_after_destructor
    (ipAcquire (allocCell s p2).1 (some s.cells.length)) o w hw
  have hnew : cbGet (Owner.destructor
      (ipAcquire (allocCell s p2).1 (some s.cells.length)) o) s.cells.length = p2 := by
    rw [cbGet_destructor_ne _ _ (wf_ne_len hwf), cbGet_ipAcquire, cbGet_alloc_self]
  simp only [Owner.reset_eq]
  refine ⟨trivial, ?_, ?_, hnew, hobs.1, hobs.2, ?_⟩
  · rw [destructor_events, ipAcquire_events, alloc_events]
  · rw [destructor_length, ipAcquire_length, alloc_length]
  · simp only [Observer.construct_from_owner_eq]
    simp only [Observer.try_get, cbGet_ipAcquire]
    exact hnew

/-- Claim C2 witness: resetting a concrete one-cell owner with a fresh
object-ref. -/
theorem claim_C2_witness :
    ((⟨some 0⟩ : Observer).pc = (⟨some 5, 7, some 0⟩ : Owner).pc ∧
      Owner.wf ⟨[some ⟨2, some 5⟩], []⟩ ⟨some 5, 7, some 0⟩ = true) ∧
    ((Owner.reset ⟨[some ⟨2, some 5⟩], []⟩ ⟨some 5, 7, some 0⟩ (some 9)).2 =
        ⟨some 9, 0, some 1⟩ ∧
      (Owner.reset ⟨[some ⟨2, some 5⟩], []⟩ ⟨some 5, 7, some 0⟩ (some 9)).1.events =
        ([] : List Event) ++ [Event.destroy 7 5] ++ [Event.clear 0] ∧
      (Owner.reset ⟨[some ⟨2, some 5⟩], []⟩ ⟨some 5, 7, some 0⟩
          (some 9)).1.cells.length = 2 ∧
      cbGet (Owner.reset ⟨[some ⟨2, some 5⟩], []⟩ ⟨some 5, 7, some 0⟩ (some 9)).1 1 =
        some 9 ∧
      Observer.expired (Owner.reset ⟨[some ⟨2, some 5⟩], []⟩ ⟨some 5, 7, some 0⟩
        (some 9)).1 ⟨some 0⟩ = true ∧
      Observer.try_get (Owner.reset ⟨[some ⟨2, some 5⟩], []⟩ ⟨some 5, 7, some 0⟩
        (some 9)).1 ⟨some 0⟩ = none ∧
      Observer.try_get
        (Observer.construct_from_owner
          (Owner.reset ⟨[some ⟨2, some 5⟩], []⟩ ⟨some 5, 7, some 0⟩ (some 9)).1
          (Owner.reset ⟨[some ⟨2, some 5⟩], []⟩ ⟨some 5, 7, some 0⟩ (some 9)).2).1
        (Observer.construct_from_owner
          (Owner.reset ⟨[some ⟨2, some 5⟩], []⟩ ⟨some 5, 7, some 0⟩ (some 9)).1
          (Owner.reset ⟨[some ⟨2, some 5⟩], []⟩ ⟨some 5, 7, some 0⟩ (some 9)).2).2 =
        some 9) :=
  ⟨⟨rfl, rfl⟩, claim_C2 ⟨[some ⟨2, some 5⟩], []⟩ ⟨some 5, 7, some 0⟩ (some 9)
    ⟨some 0⟩ rfl rfl⟩

/-- Claim C4: move-construction and move-assignment relocate the object-ref,
the destroy-policy and the cell reference itself to the destination (no new
cell), leave the source with no object and no cell, and leave every observer
of the source's cell observing the same cell with unchanged `try_get` and
`expired` answers.  (For move-assignment the destination's old cell — if any —
is a different cell, as holds for any two distinct reachable owners.) -/
theorem claim_C4 (s : State) (o t r : Owner) (w : Observer)
    (hw : w.pc = r.pc) (hsep : t.pc = none ∨ t.pc ≠ r.pc) :
    (Owner.move_construct o).1 = ⟨o.px, o.pd, o.pc⟩ ∧
    (Owner.move_construct o).2.px = none ∧
    (Owner.move_construct o).2.pc = none ∧
    (Owner.move_assign s t r).2.1 = ⟨r.px, r.pd, r.pc⟩ ∧
    (Owner.move_assign s t r).2.2.px = none ∧
    (Owner.move_assign s t r).2.2.pc = none ∧
    (Owner.move_assign s t r).1.cells.length = s.cells.length ∧
    Observer.try_get (Owner.move_assign s t r).1 w = Observer.try_get s w ∧
    Observer.expired (Owner.move_assign s t r).1 w = Observer.expired s w := by
  obtain ⟨wpc⟩ := w
  dsimp only at hw
  subst hw
  simp only [Owner.move_assign_eq]
  refine ⟨rfl, rfl, rfl, trivial, trivial, trivial, destructor_length s t, ?_, ?_⟩ <;>
    rcases hpc : r.pc with _ | i
  · simp [Observer.try_get, hpc]
  · have hne : t.pc ≠ some i := by
      rcases hsep with hn | hne2
      · simp [hn]
      · rw [← hpc]
        exact hne2
    simp [Observer.try_get, hpc, cbGet_destructor_ne s t hne]
  · simp [Observer.expired, hpc]
  · have hne : t.pc ≠ some i := by
      rcases hsep with hn | hne2
      · simp [hn]
      · rw [← hpc]
        exact hne2
    simp [Observer.expired, hpc, cbGet_destructor_ne s t hne]

/-- Claim C4 witness: moving a concrete owner into a previously empty owner. -/
theorem claim_C4_witness :
    ((⟨some 0⟩ : Observer).pc = (⟨some 5, 7, some 0⟩ : Owner).pc ∧
      ((⟨none, 0, none⟩ : Owner).pc = none ∨
        (⟨none, 0, none⟩ : Owner).pc ≠ (⟨some 5, 7, some 0⟩ : Owner).pc)) ∧
    ((Owner.move_construct ⟨some 5, 7, some 0⟩).1 = ⟨some 5, 7, some 0⟩ ∧
      (Owner.move_construct ⟨some 5, 7, some 0⟩).2.px = none ∧
      (Owner.move_construct ⟨some 5, 7, some 0⟩).2.pc = none ∧
      (Owner.move_assign ⟨[some ⟨2, some 5⟩], []⟩ ⟨none, 0, none⟩
          ⟨some 5, 7, some 0⟩).2.1 = ⟨some 5, 7, some 0⟩ ∧
      (Owner.move_assign ⟨[some ⟨2, some 5⟩], []⟩ ⟨none, 0, none⟩
          ⟨some 5, 7, some 0⟩).2.2.px = none ∧
      (Owner.move_assign ⟨[some ⟨2, some 5⟩], []⟩ ⟨none, 0, none⟩
          ⟨some 5, 7, some 0⟩).2.2.pc = none ∧
      (Owner.move_assign ⟨[some ⟨2, some 5⟩], []⟩ ⟨none, 0, none⟩
          ⟨some 5, 7, some 0⟩).1.cells.length = 1 ∧
      Observer.try_get (Owner.move_assign ⟨[some ⟨2, some 5⟩], []⟩ ⟨none, 0, none⟩
          ⟨some 5, 7, some 0⟩).1 ⟨some 0⟩ =
        Observer.try_get ⟨[some ⟨2, some 5⟩], []⟩ ⟨some 0⟩ ∧
      Observer.expired (Owner.move_assign ⟨[some ⟨2, some 5⟩], []⟩ ⟨none, 0, none⟩
          ⟨some 5, 7, some 0⟩).1 ⟨some 0⟩ =
        Observer.expired ⟨[some ⟨2, some 5⟩], []⟩ ⟨some 0⟩) :=
  ⟨⟨rfl, Or.inl rfl⟩, claim_C4 ⟨[some ⟨2, some 5⟩], []⟩ ⟨some 5, 7, some 0⟩
    ⟨none, 0, none⟩ ⟨some 5, 7, some 0⟩ ⟨some 0⟩ rfl (Or.inl rfl)⟩

/-- Claim C5: `expired()` is true exactly when the observer holds no cell or
the held cell's stored reference is empty, and `try_get()` returns the stored
reference exactly when a cell is held and its stored reference is non-empty,
`none` otherwise.  (Both are embedded as pure functions of the heap — the
`const`-qualified C++ members read the cell and cannot modify it.) -/
theorem claim_C5 (s : State) (w : Observer) :
    (Observer.expired s w = true ↔
      w.pc = none ∨ ∃ i, w.pc = some i ∧ cbGet s i = none) ∧
    (∀ v, Observer.try_get s w = some v ↔
      ∃ i, w.pc = some i ∧ cbGet s i = some v) ∧
    (Observer.try_get s w = none ↔
      w.pc = none ∨ ∃ i, w.pc = some i ∧ cbGet s i = none) := by
  obtain ⟨wpc⟩ := w
  rcases wpc with _ | i
  · simp [Observer.expired, Observer.try_get]
  · rcases hg : cbGet s i with _ | v <;>
      simp [Observer.expired, Observer.try_get, hg]

/-- Claim C6: the pointer-taking constructor always allocates a fresh cell
storing the given object-ref, null included; with a null object-ref the
owner's `bool` conversion is false, yet an observer snapshotted from it is
bound to a cell (and expired because the slot is empty) rather than unbound. -/
theorem claim_C6 (s : State) (p : Option Nat) (d : Nat) :
    (Owner.construct_ptr s p d).2.pc = some s.cells.length ∧
    (Owner.construct_ptr s p d).2.px = p ∧
    (Owner.construct_ptr s p d).1.cells.length = s.cells.length + 1 ∧
    cbGet (Owner.construct_ptr s p d).1 s.cells.length = p ∧
    Owner.operator_bool (Owner.construct_ptr s none d).2 = false ∧
    (Observer.construct_from_owner (Owner.construct_ptr s none d).1
      (Owner.construct_ptr s none d).2).2.pc = some s.cells.length ∧
    Observer.expired
      (Observer.construct_from_owner (Owner.construct_ptr s none d).1
        (Owner.construct_ptr s none d).2).1
      (Observer.construct_from_owner (Owner.construct_ptr s none d).1
        (Owner.construct_ptr s none d).2).2 = true := by
  have hget : ∀ q : Option Nat, cbGet (Owner.construct_ptr s q d).1 s.cells.length = q := by
    intro q
    simp only [Owner.construct_ptr_eq]
    rw [cbGet_ipAcquire, cbGet_alloc_self]
  refine ⟨rfl, rfl, ?_, hget p, rfl, rfl, ?_⟩
  · simp only [Owner.construct_ptr_eq]
    rw [ipAcquire_length, alloc_length]
  · simp only [Observer.construct_from_owner_eq, Owner.construct_ptr_eq]
    simp only [Observer.expired, cbGet_ipAcquire]
    have := hget none
    simp only [Owner.construct_ptr_eq, cbGet_ipAcquire] at this
    simp [this]

/-- Claim C7: a default-constructed owner has no cell; an observer snapshotted
from it is unbound, reports expired with nothing to read in *every* heap — in
particular still after the owner is later given a new object-ref by
`reset(p2)` — because the snapshot never follows the owner to the new cell. -/
theorem claim_C7 (s : State) (p2 : Option Nat) :
    Owner.construct_default.pc = none ∧
    (Observer.construct_from_owner s Owner.construct_default).1 = s ∧
    (Observer.construct_from_owner s Owner.construct_default).2.pc = none ∧
    (∀ s2 : State,
      Observer.expired s2 (Observer.construct_from_owner s Owner.construct_default).2
        = true ∧
      Observer.try_get s2 (Observer.construct_from_owner s Owner.construct_default).2
        = none) ∧
    (Owner.reset s Owner.construct_default p2).2.pc = some s.cells.length ∧
    Observer.expired (Owner.reset s Owner.construct_default p2).1
      (Observer.construct_from_owner s Owner.construct_default).2 = true ∧
    Observer.try_get (Owner.reset s Owner.construct_default p2).1
      (Observer.construct_from_owner s Owner.construct_default).2 = none := by
  refine ⟨rfl, rfl, rfl, ?_, rfl, ?_, ?_⟩
  · intro s2
    exact ⟨rfl, rfl⟩
  · rfl
  · rfl

/-- Claim C10: assigning the null literal destroys the current object via the
destroy-policy (if present), clears the current cell (if present), and leaves
the owner with no object and no cell; no new cell is allocated, so an observer
snapshotted from the owner afterwards is unbound (and expired). -/
theorem claim_C10 (s : State) (o : Owner) :
    (Owner.assign_null s o).2 = Owner.construct_default ∧
    (Owner.assign_null s o).2.px = none ∧
    (Owner.assign_null s o).2.pc = none ∧
    (Owner.assign_null s o).1.events =
      s.events ++ (match o.px with
        | some r => [Event.destroy o.pd r]
        | none => [])
      ++ (match o.pc with
        | some i => [Event.clear i]
        | none => []) ∧
    (Owner.assign_null s o).1.cells.length = s.cells.length ∧
    (Observer.construct_from_owner (Owner.assign_null s o).1
      (Owner.assign_null s o).2).2.pc = none ∧
    Observer.expired
      (Observer.construct_from_owner (Owner.assign_null s o).1
        (Owner.assign_null s o).2).1
      (Observer.construct_from_owner (Owner.assign_null s o).1
        (Owner.assign_null s o).2).2 = true := by
  simp only [Owner.assign_null_eq]
  exact ⟨trivial, rfl, rfl, destructor_events s o, destructor_length s o, rfl, rfl⟩

/-- The empty configuration satisfies the reference-count invariant. -/
theorem inv_nil : Inv ⟨State.empty, [], []⟩ := by
  intro i
  rw [cellOk_noSlot (by simp [State.empty])]
  rfl

/-- Claim C8: the liveness-cell invariant — every live cell's reference count
equals the number of live handles bound to it (owners' internal handles plus
observers), and a deallocated slot has no handles — is preserved by every
public-API operation; `intrusive_ptr_add_ref` increments the count by exactly
one, and `intrusive_ptr_release` decrements it by exactly one, deallocating
the cell exactly when the count reaches zero. -/
theorem claim_C8 :
    (∀ (s : State) (i : Nat) (c : Cell), s.cells[i]? = some (some c) →
      (addRef s i).cells[i]? = some (some { c with ref_count := c.ref_count + 1 })) ∧
    (∀ (s : State) (i : Nat) (c : Cell), s.cells[i]? = some (some c) →
      (releaseRef s i).cells[i]? =
        some (if c.ref_count - 1 = 0 then none
          else some { c with ref_count := c.ref_count - 1 })) ∧
    (∀ (cfg : Config) (op : Op), Inv cfg → Inv (step cfg op)) := by
  refine ⟨?_, ?_, inv_step⟩
  · intro s i c he
    have hlen := (List.getElem?_eq_some.mp he).1
    simp [addRef, he, List.getElem?_set_self hlen]
  · intro s i c he
    have hlen := (List.getElem?_eq_some.mp he).1
    by_cases hz : c.ref_count - 1 = 0 <;>
      simp [releaseRef, he, hz, List.getElem?_set_self hlen]

/-- Claim C8 witness: a concrete acquire on a one-cell heap, a concrete
release that deallocates, and one API step from the empty configuration. -/
theorem claim_C8_witness :
    ((⟨[some ⟨1, some 5⟩], []⟩ : State).cells[0]? = some (some ⟨1, some 5⟩) ∧
      Inv ⟨State.empty, [], []⟩) ∧
    ((addRef ⟨[some ⟨1, some 5⟩], []⟩ 0).cells[0]? = some (some ⟨2, some 5⟩) ∧
      (releaseRef ⟨[some ⟨1, some 5⟩], []⟩ 0).cells[0]? = some none ∧
      Inv (step ⟨State.empty, [], []⟩ (Op.ownerNew (some 7) 3))) :=
  ⟨⟨rfl, inv_nil⟩,
    claim_C8.1 ⟨[some ⟨1, some 5⟩], []⟩ 0 ⟨1, some 5⟩ rfl,
    claim_C8.2.1 ⟨[some ⟨1, some 5⟩], []⟩ 0 ⟨1, some 5⟩ rfl,
    claim_C8.2.2 ⟨State.empty, [], []⟩ (Op.ownerNew (some 7) 3) inv_nil⟩

end WeakableUnique
